import Mathlib

/-!
Verification of the GymUnity content-ingestion and hybrid-recommendation
subsystem against its specification.

The repository ships the backend's design documents (the appendix of
`src/components/Navbar.tsx` and the system/data-flow documents in
`src/unnamed/`) together with the frontend TypeScript sources.  The
pure algorithms that the documents state as literal code (the diversity
rerank, the enrichment quality score, the ranking formula, the event
batch schema) are translated here directly from those snippets; the parts
of the backend whose Python sources are not in the repository (the event
ledger, the ingestion pipeline, the source health counters, the feed
assembly) are modelled from the specification's words, and each such
definition says so in its doc comment.
-/

namespace GymUnity


/-! ## Enrichment quality score (claim C7)

Translated from the quality-score snippet in the design document
(`src/components/Navbar.tsx`, Stage 4 — Enrich):

    score = 0.0
    if len(title) > 20: score += 0.2
    if len(summary) > 100: score += 0.2
    if image_url: score += 0.2
    if content and len(content) > 500: score += 0.2
    if published_at and (now - published_at).days < 3: score += 0.2

Float arithmetic is modelled over `ℚ` (0.2 = 1/5); times are modelled at
day granularity as integers, `now` being an explicit parameter. -/

/-- Python truthiness of the optional image URL: present and non-empty. -/
def imagePresent : Option String → Bool
  | none => false
  | some s => !s.isEmpty

/-- `content and len(content) > 500`: a body longer than 500 characters
(a longer-than-500 body is in particular non-empty). -/
def contentSubstantial : Option String → Bool
  | none => false
  | some c => decide (500 < c.length)

/-- `published_at and (now - published_at).days < 3`, at day granularity. -/
def recentPublication (nowDay : Int) : Option Int → Bool
  | none => false
  | some p => decide (nowDay - p < 3)

/-- The additive quality heuristic of the enrichment stage, as the running
sum written in the source snippet. -/
def qualityScore (nowDay : Int) (title summary : String) (content : Option String)
    (imageUrl : Option String) (publishedDay : Option Int) : ℚ :=
  let s0 : ℚ := 0
  let s1 := if 20 < title.length then s0 + 1/5 else s0
  let s2 := if 100 < summary.length then s1 + 1/5 else s1
  let s3 := if imagePresent imageUrl then s2 + 1/5 else s2
  let s4 := if contentSubstantial content then s3 + 1/5 else s3
  let s5 := if recentPublication nowDay publishedDay then s4 + 1/5 else s4
  s5

/-! ## TextType component (claim C9)

Translated from `src/unnamed/part_002` (the `TextType` React component). -/

/-- The `text` prop of `TextType`: a single string or an array of strings. -/
inductive TextPropValue where
  | single (s : String)
  | phrases (l : List String)
deriving DecidableEq

/-- `Array.isArray(text) ? text : [text]`. -/
def textArrayOf : TextPropValue → List String
  | .single s => [s]
  | .phrases l => l

/-- The props of `TextType` that the render decision depends on. -/
structure TextTypeProps where
  text : TextPropValue
  textColors : List String
  showCursor : Bool
  startOnVisible : Bool
deriving DecidableEq

/-- The initial typing-animation state of `TextTypeInner`
(the `useState` initial values). -/
structure AnimState where
  displayedText : String
  currentCharIndex : Nat
  isDeleting : Bool
  currentTextIndex : Nat
  isVisible : Bool
deriving DecidableEq

/-- Initial `useState` values of `TextTypeInner`. -/
def initialAnimState (p : TextTypeProps) : AnimState :=
  ⟨"", 0, false, 0, !p.startOnVisible⟩

/-- What `TextType` renders: either the static reduced-motion span, or the
mounted `TextTypeInner` animation with its cursor element. -/
inductive TextTypeView where
  | staticView (phrase : Option String) (color : String)
  | animatedView (s : AnimState) (cursorShown : Bool)
deriving DecidableEq

/-- `textColors[0] || 'inherit'` (JS falsiness: a missing or empty first
entry falls back to `'inherit'`). -/
def firstPhraseColor : List String → String
  | [] => "inherit"
  | c :: _ => if c = "" then "inherit" else c

/-- The render decision of `TextType`: under `prefers-reduced-motion` it
returns the static span with the first phrase, otherwise it mounts
`TextTypeInner`. -/
def renderTextType (prefersReducedMotion : Bool) (p : TextTypeProps) : TextTypeView :=
  if prefersReducedMotion then
    .staticView (textArrayOf p.text).head? (firstPhraseColor p.textColors)
  else
    .animatedView (initialAnimState p) p.showCursor

/-- Whether the rendered view contains the cursor `<span>`. -/
def viewShowsCursor : TextTypeView → Bool
  | .staticView _ _ => false
  | .animatedView _ c => c

/-- Whether the rendered view mounts the typing/deleting animation. -/
def viewAnimates : TextTypeView → Bool
  | .staticView _ _ => false
  | .animatedView _ _ => true

/-! ## AICoach sendMessage (claim C10)

Translated from `src/src/pages/AICoach.tsx` (`sendMessage`). -/

/-- A chat message as kept in the AICoach message list. -/
structure ChatMessage where
  role : String
  content : String
deriving DecidableEq

/-- The AICoach component state that `sendMessage` reads and writes. -/
structure CoachState where
  messages : List ChatMessage
  conversationId : Option String
  errorMsg : Option String
  isLoading : Bool
  input : String
deriving DecidableEq

/-- External effects `sendMessage` can issue before its first await. -/
inductive CoachEffect where
  | navigateLogin
  | postChat (message : String) (conversationId : Option String)
deriving DecidableEq

/-- Whitespace for the purposes of `String.prototype.trim`. -/
def isTrimmedSpace (c : Char) : Bool :=
  c = ' ' || c = '\t' || c = '\n' || c = '\r'

/-- JS `text.trim()`: whitespace removed from both ends, modelled on the
character list. -/
def trimmedInput (s : String) : String :=
  String.mk (((s.data.dropWhile isTrimmedSpace).reverse.dropWhile isTrimmedSpace).reverse)

/-- The synchronous prefix of `sendMessage`, up to the point where the
network request is issued: the guard, the error/input reset, the token
check, and the optimistic append of the user message. -/
def sendMessage (st : CoachState) (token : Option String) (text : String) :
    CoachState × List CoachEffect :=
  let trimmed := trimmedInput text
  if trimmed.isEmpty || st.isLoading then (st, [])
  else
    let st1 : CoachState := { st with errorMsg := none, input := "" }
    match token with
    | none => (st1, [.navigateLogin])
    | some _ =>
      ({ st1 with
          messages := st1.messages ++ [⟨"user", trimmed⟩],
          isLoading := true },
       [.postChat trimmed st.conversationId])

/-! ## Ranking formula (claim C1)

Translated from the ranking-formula table in the design document
(`src/components/Navbar.tsx`, section 5D): weights w1..w5 = 0.30, 0.25,
0.20, 0.15, 0.10 and penalties p1, p2 = 0.50, 0.20.  Float arithmetic is
modelled over `ℝ` so that the exponential decay is exact. -/

/-- The per-candidate signals that the ranking formula consumes. -/
structure ScoreInput where
  similarity : Option ℝ
  daysSincePublished : ℝ
  articleTopics : List String
  userTopTopics : List String
  popularityScore : ℝ
  qualityValue : ℝ
  alreadySeen : Bool
  sourceFatigue : Bool

/-- The vector pool's cosine score when available, else 0. -/
noncomputable def similarityValue : Option ℝ → ℝ
  | none => 0
  | some s => s

/-- `recency_decay = exp(-0.1 × days_old)`. -/
noncomputable def recencyDecay (days : ℝ) : ℝ := Real.exp (-0.1 * days)

/-- `preference_match`: 1.0 if the article topics overlap the user's top
topics, else 0.0. -/
noncomputable def preferenceMatch (articleTopics userTopics : List String) : ℝ :=
  if articleTopics.any (fun t => userTopics.contains t) then 1 else 0

/-- `popularity = min(1.0, popularity_score / 100)` with the popularity
score clamped to ≥ 0 before normalization. -/
noncomputable def popularityNorm (p : ℝ) : ℝ := min 1 (max 0 p / 100)

/-- 0/1 indicator of a boolean penalty flag. -/
noncomputable def indicatorR (b : Bool) : ℝ := if b then 1 else 0

/-- The fixed weighted sum that scores each candidate article. -/
noncomputable def rankingScore (i : ScoreInput) : ℝ :=
  0.30 * similarityValue i.similarity
    + 0.25 * recencyDecay i.daysSincePublished
    + 0.20 * preferenceMatch i.articleTopics i.userTopTopics
    + 0.15 * popularityNorm i.popularityScore
    + 0.10 * i.qualityValue
    - 0.50 * indicatorR i.alreadySeen
    - 0.20 * indicatorR i.sourceFatigue

/-! ## Diversity rerank (claim C2)

Translated from the `diversify` snippet in the design document
(`src/components/Navbar.tsx`, section 5E). -/

/-- An article as the recommender sees it (the fields the serving pipeline
reads; blocked-keyword matching is modelled on the tokenized
title+summary text). -/
structure RecArticle where
  id : Nat
  sourceId : Nat
  topics : List String
  textTokens : List String
  language : String
  sourceEnabled : Bool
  publishedDaysAgo : Nat
  popularity : ℚ
  quality : ℚ
deriving DecidableEq

/-- `article.topics[0] if article.topics else 'general'`. -/
def primaryTopic (a : RecArticle) : String := a.topics.headD "general"

/-- Pointwise bump of a counter table (`Counter[k] += 1`). -/
def bumpCount {α : Type} [DecidableEq α] (f : α → Nat) (k : α) : α → Nat :=
  fun x => if x = k then f x + 1 else f x

/-- The greedy diversification walk: admit an article only while its source
has fewer than `maxPerSource` admissions and its primary topic fewer than
`maxPerTopic`; stop once the page is full.  Rejected articles are skipped,
not removed from `ranked`. -/
def diversifyGo (maxPerSource maxPerTopic pageSize : Nat)
    (sourceCount : Nat → Nat) (topicCount : String → Nat) (resLen : Nat) :
    List RecArticle → List RecArticle
  | [] => []
  | a :: rest =>
    if maxPerSource ≤ sourceCount a.sourceId then
      diversifyGo maxPerSource maxPerTopic pageSize sourceCount topicCount resLen rest
    else if maxPerTopic ≤ topicCount (primaryTopic a) then
      diversifyGo maxPerSource maxPerTopic pageSize sourceCount topicCount resLen rest
    else
      a :: (if pageSize ≤ resLen + 1 then []
            else diversifyGo maxPerSource maxPerTopic pageSize
                  (bumpCount sourceCount a.sourceId)
                  (bumpCount topicCount (primaryTopic a)) (resLen + 1) rest)

/-- `diversify(ranked, max_per_source=2, max_per_topic=3)` with the page
size of the request. -/
def diversify (ranked : List RecArticle) (pageSize : Nat) : List RecArticle :=
  diversifyGo 2 3 pageSize (fun _ => 0) (fun _ => 0) 0 ranked

/-! ## Feedback ledger (claims C3 and C8)

Modelled from the spec: the backend event route (`events.py`) is not in
the repository; the behaviour below follows §4.5 of the specification and
the event-tracking flow of the design documents — dedup by
`(user, article, event kind, session)` within a 5-minute window, fixed
popularity deltas for accepted events, unconditional append to the event
log, and a 100-event batch cap enforced as a validation error. -/

/-- The seven interaction event kinds. -/
inductive EventKind where
  | impression
  | click
  | save
  | unsave
  | hide
  | unhide
  | dwell
deriving DecidableEq

/-- One client-reported interaction event (time in seconds). -/
structure Event where
  user : Nat
  article : Nat
  kind : EventKind
  session : Option String
  time : Nat
deriving DecidableEq

/-- Fixed popularity deltas: click +1.0, save +3.0, unsave −1.0, hide
−5.0; impression/dwell (and unhide) do not move popularity. -/
def popularityDelta : EventKind → ℚ
  | .click => 1
  | .save => 3
  | .unsave => -1
  | .hide => -5
  | _ => 0

/-- The dedup key `(user, article, event kind, session)`. -/
def sameKey (p e : Event) : Bool :=
  p.user == e.user && p.article == e.article
    && decide (p.kind = e.kind) && p.session == e.session

/-- Whether two events fall within the 5-minute (300 s) dedup window of
each other. -/
def withinWindow (p e : Event) : Bool :=
  decide (p.time ≤ e.time + 300) && decide (e.time ≤ p.time + 300)

/-- The ledger state: the append-only event log, the previously accepted
(aggregate-applied) events, the duplicate counter, and the per-article
popularity aggregate. -/
structure LedgerState where
  log : List Event
  accepted : List Event
  dupSkipped : Nat
  pop : Nat → ℚ

/-- An event is a duplicate when an earlier accepted event shares its
dedup key within the 5-minute window. -/
def isDuplicate (st : LedgerState) (e : Event) : Bool :=
  st.accepted.any (fun p => sameKey p e && withinWindow p e)

/-- Processing one event: a duplicate is counted and logged but its
aggregate mutation is skipped; an accepted event is logged and its
popularity delta applied. -/
def processEvent (st : LedgerState) (e : Event) : LedgerState :=
  if isDuplicate st e then
    ⟨st.log ++ [e], st.accepted, st.dupSkipped + 1, st.pop⟩
  else
    ⟨st.log ++ [e], st.accepted ++ [e], st.dupSkipped,
     fun a => if a = e.article then st.pop a + popularityDelta e.kind else st.pop a⟩

/-- `submit_events`: a batch above the 100-event cap is rejected with a
validation error before any event is applied; otherwise all events are
processed and the response reports the accepted and duplicate counts. -/
def submitEvents (st : LedgerState) (events : List Event) :
    Except String (LedgerState × Nat × Nat) :=
  if 100 < events.length then
    Except.error "event batch exceeds the 100-event cap"
  else
    let st' := events.foldl processEvent st
    Except.ok (st', st'.accepted.length - st.accepted.length,
               st'.dupSkipped - st.dupSkipped)

/-! ## Source health counters (claim C6)

Modelled from the spec: the fetch layer (`news_fetcher.py`) is not in the
repository; the behaviour below follows §4.1 — every fetch-level failure
increments the consecutive-failure counter, success resets it to zero and
updates the last-fetch timestamp, the source is auto-disabled once the
counter reaches 5, and scheduled runs skip disabled sources until an
operator re-enables them. -/

/-- A registered syndication source's health fields. -/
structure NewsSource where
  enabled : Bool
  fetchErrorCount : Nat
  lastFetchedAt : Option Nat
deriving DecidableEq

/-- Outcome of one fetch attempt. -/
inductive FetchResult where
  | success
  | failure
deriving DecidableEq

/-- Effect of one performed fetch on the source's health fields: failure
increments the counter (auto-disabling at 5), success resets it and
updates the last-fetch timestamp. -/
def applyFetch (t : Nat) (s : NewsSource) : FetchResult → NewsSource
  | .failure =>
    ⟨if 5 ≤ s.fetchErrorCount + 1 then false else s.enabled,
     s.fetchErrorCount + 1, s.lastFetchedAt⟩
  | .success => ⟨s.enabled, 0, some t⟩

/-- One scheduled-run step for a source: a disabled source is skipped
(not fetched), an enabled one is fetched with the given outcome. -/
def scheduledStep (s : NewsSource) (tr : Nat × FetchResult) : NewsSource :=
  if s.enabled then applyFetch tr.1 s tr.2 else s

/-- A sequence of scheduled runs over a source. -/
def runSchedule (s : NewsSource) (runs : List (Nat × FetchResult)) : NewsSource :=
  runs.foldl scheduledStep s

/-! ## Feed assembly and degradation (claim C4)

Modelled from the spec: the recommender service (`recommender.py`) is not
in the repository; the pipeline below follows §4.3–§4.4 — four capped
candidate pools (vector ≤50, topic ≤30 over 14 days, trending ≤20 over
3 days, newest ≤20), merge and dedup by article id, filtering with
progressive relaxation (freshness widened to 30 days, then the
hidden/seen filters dropped), descending sort by score with recency
tie-break, the greedy diversity rerank, and pagination.  The vector
backend is the polymorphic capability of §4.3: the local/networked
variants are abstracted as an index holding its search results, and the
no-op variant always returns empty results.  The concrete scoring formula
is embedded separately (claim C1) over ℝ; the pipeline is parametric in
the score so its candidate-flow properties hold for any scoring
function. -/

/-- The pluggable vector index: a backend holding ranked search results,
or the no-op variant. -/
inductive VectorBackend where
  | noop
  | withIndex (results : List (Nat × ℚ))
deriving DecidableEq

/-- `search` on the active backend: the no-op variant always returns
empty results. -/
def searchBackend : VectorBackend → List (Nat × ℚ)
  | .noop => []
  | .withIndex rs => rs

/-- The user profile fields the serving pipeline reads. -/
structure RecUser where
  topTopics : List String
  blockedKeywords : List String
  language : String
  hiddenIds : List Nat
  seen24hIds : List Nat
deriving DecidableEq

/-- Insertion into a list sorted by `le`. -/
def insertLe {α : Type} (le : α → α → Bool) (a : α) : List α → List α
  | [] => [a]
  | b :: l => if le a b then a :: b :: l else b :: insertLe le a l

/-- Insertion sort by `le`. -/
def insertionSortBy {α : Type} (le : α → α → Bool) : List α → List α
  | [] => []
  | a :: l => insertLe le a (insertionSortBy le l)

/-- Vector pool: the backend's ranked ids resolved against the article
store, capped at 50. -/
def vectorPool (store : List RecArticle) (backend : VectorBackend) : List RecArticle :=
  ((searchBackend backend).filterMap (fun r => store.find? (fun a => a.id == r.1))).take 50

/-- Topic pool: articles matching the user's top 3 topics within a 14-day
window, capped at 30. -/
def topicPool (store : List RecArticle) (u : RecUser) : List RecArticle :=
  (store.filter (fun a =>
      decide (a.publishedDaysAgo ≤ 14)
        && a.topics.any (fun t => (u.topTopics.take 3).contains t))).take 30

/-- Trending pool: articles of the last 3 days ranked by popularity,
capped at 20. -/
def trendingPool (store : List RecArticle) : List RecArticle :=
  (insertionSortBy (fun a b => decide (b.popularity ≤ a.popularity))
      (store.filter (fun a => decide (a.publishedDaysAgo ≤ 3)))).take 20

/-- Newest pool: most recent articles irrespective of topic, capped
at 20. -/
def newestPool (store : List RecArticle) : List RecArticle :=
  (insertionSortBy (fun a b => decide (a.publishedDaysAgo ≤ b.publishedDaysAgo)) store).take 20

/-- Merge with deduplication by article id, keeping the first occurrence
of each id. -/
def dedupByIdGo (seen : List Nat) : List RecArticle → List RecArticle
  | [] => []
  | a :: l =>
    if seen.contains a.id then dedupByIdGo seen l
    else a :: dedupByIdGo (a.id :: seen) l

/-- All four pools merged and deduplicated by article id. -/
def mergeCandidates (u : RecUser) (store : List RecArticle) (backend : VectorBackend) :
    List RecArticle :=
  dedupByIdGo []
    (vectorPool store backend ++ topicPool store u ++ trendingPool store ++ newestPool store)

/-- The filters that are never relaxed: blocked keywords, enabled source,
language match, and the (possibly widened) freshness window. -/
def passesCore (u : RecUser) (window : Nat) (a : RecArticle) : Bool :=
  !(u.blockedKeywords.any (fun k => a.textTokens.contains k))
    && a.sourceEnabled
    && (a.language == u.language)
    && decide (a.publishedDaysAgo ≤ window)

/-- The full filter: core filters plus the hidden and already-seen (24 h)
exclusions. -/
def passesStrict (u : RecUser) (window : Nat) (a : RecArticle) : Bool :=
  !(u.hiddenIds.contains a.id) && !(u.seen24hIds.contains a.id) && passesCore u window a

/-- Filtering with progressive relaxation: full filters over the 14-day
window, then over a widened 30-day window, then with the hidden/seen
filters dropped; an empty feed is the last resort. -/
def filterCandidates (u : RecUser) (cands : List RecArticle) : List RecArticle :=
  let c1 := cands.filter (fun a => passesStrict u 14 a)
  if c1.isEmpty then
    let c2 := cands.filter (fun a => passesStrict u 30 a)
    if c2.isEmpty then cands.filter (fun a => passesCore u 30 a)
    else c2
  else c1

/-- Descending sort by score, ties broken by more-recent publication. -/
def rankCandidates (score : RecArticle → ℚ) (l : List RecArticle) : List RecArticle :=
  insertionSortBy (fun a b =>
    decide (score b < score a)
      || (decide (score a = score b) && decide (a.publishedDaysAgo ≤ b.publishedDaysAgo))) l

/-- One page of `get_feed`: candidates, filtering, ranking, diversity
rerank, pagination. -/
def getFeedPage (score : RecArticle → ℚ) (u : RecUser) (store : List RecArticle)
    (backend : VectorBackend) (page pageSize : Nat) : List RecArticle :=
  let cands := mergeCandidates u store backend
  let filtered := filterCandidates u cands
  let ranked := rankCandidates score filtered
  let pageList := diversify ranked pageSize
  (pageList.drop ((page - 1) * pageSize)).take pageSize

/-! ## Ingestion pipeline and dedup (claim C5)

Modelled from the spec: the fetch/stage/dedup service
(`news_fetcher.py`) is not in the repository; the behaviour below follows
§4.1 and the ingestion flows of the design documents — the URL hash is
the ingestion-level dedup key (a SHA-256 over the canonical URL, modelled
as the canonical URL itself since the hash is injective for all practical
purposes), an entry whose hash already exists for the source is marked
`duplicate` on its staged row and skipped, the secondary identical-title
check (token-set Jaccard similarity above 90 % within the same source)
catches near-duplicates the URL hash misses, and surviving entries are
staged `pending` and upserted into the article table keyed by
`(source, unique hash)`.  Titles are modelled as their token lists and
the content-identity hash over `(title, summary, content)` as the triple
itself (again an injective hash). -/

/-- The lifecycle status of a staged raw feed item. -/
inductive RawStatus where
  | pending
  | processed
  | duplicate
  | errored
deriving DecidableEq

/-- One staged raw feed item (`raw_feed_items` row). -/
structure RawItem where
  sourceId : Nat
  urlHash : String
  status : RawStatus
deriving DecidableEq

/-- One canonical article row (`news_articles` row), with the title kept
as its token list. -/
structure ArticleRow where
  sourceId : Nat
  uniqueHash : String
  titleTokens : List String
  summary : String
  content : String
deriving DecidableEq

/-- The content-identity triple whose (injectively modelled) hash detects
content changes. -/
def articleContentKey (a : ArticleRow) : List String × String × String :=
  (a.titleTokens, a.summary, a.content)

/-- One parsed and normalized feed entry, with its canonical URL and
tokenized title. -/
structure FeedEntry where
  url : String
  titleTokens : List String
  summary : String
  content : String
deriving DecidableEq

/-- The staging and canonical tables the pipeline writes. -/
structure IngestState where
  rawItems : List RawItem
  articles : List ArticleRow
deriving DecidableEq

/-- Jaccard similarity of two token sets; two empty titles are treated as
identical (similarity 1). -/
def jaccardSim (x y : List String) : ℚ :=
  let u := x.toFinset ∪ y.toFinset
  if u.card = 0 then 1 else ((x.toFinset ∩ y.toFinset).card : ℚ) / u.card

/-- The secondary near-duplicate check: token-set similarity above 90 %. -/
def titleSimilar (x y : List String) : Bool :=
  decide ((9 : ℚ) / 10 < jaccardSim x y)

/-- Boolean match of a raw item against the `(source, URL hash)` dedup
key. -/
def rawKeyP (src : Nat) (url : String) (r : RawItem) : Bool :=
  r.sourceId == src && r.urlHash == url

/-- Whether a raw item with the given dedup key is already staged. -/
def hasRaw (st : IngestState) (src : Nat) (url : String) : Bool :=
  st.rawItems.any (rawKeyP src url)

/-- Boolean match of an article against the `(source, unique hash)`
upsert key. -/
def artKeyP (src : Nat) (url : String) (a : ArticleRow) : Bool :=
  a.sourceId == src && a.uniqueHash == url

/-- Whether some article of the source has a near-duplicate title. -/
def hasSimilarTitle (st : IngestState) (src : Nat) (title : List String) : Bool :=
  st.articles.any (fun a => a.sourceId == src && titleSimilar a.titleTokens title)

/-- Processing one feed entry for a source: a staged URL hash marks the
existing row `duplicate` and skips; a near-duplicate title stages the
entry as `duplicate`; otherwise the entry is staged and upserted into the
article table keyed by `(source, unique hash)` (update on content change,
insert otherwise). -/
def processFeedEntry (src : Nat) (st : IngestState) (e : FeedEntry) : IngestState :=
  if hasRaw st src e.url then
    ⟨st.rawItems.map (fun r =>
        if rawKeyP src e.url r then ⟨r.sourceId, r.urlHash, .duplicate⟩ else r),
     st.articles⟩
  else if hasSimilarTitle st src e.titleTokens then
    ⟨st.rawItems ++ [⟨src, e.url, .duplicate⟩], st.articles⟩
  else if st.articles.any (artKeyP src e.url) then
    ⟨st.rawItems ++ [⟨src, e.url, .processed⟩],
     st.articles.map (fun a =>
        if artKeyP src e.url a then ⟨src, e.url, e.titleTokens, e.summary, e.content⟩
        else a)⟩
  else
    ⟨st.rawItems ++ [⟨src, e.url, .processed⟩],
     st.articles ++ [⟨src, e.url, e.titleTokens, e.summary, e.content⟩]⟩

/-- Processing one fetched feed payload for a source. -/
def ingestPayload (src : Nat) (st : IngestState) (payload : List FeedEntry) : IngestState :=
  payload.foldl (processFeedEntry src) st

/-- The `(source, URL hash)` uniqueness invariant of the staging table. -/
def RawUnique (st : IngestState) : Prop :=
  ∀ (s : Nat) (u : String), st.rawItems.countP (rawKeyP s u) ≤ 1

/-- Every staged row for the given `(source, URL hash)` key is marked
`duplicate`. -/
def DupMarked (st : IngestState) (src : Nat) (url : String) : Prop :=
  ∀ r ∈ st.rawItems, rawKeyP src url r = true → r.status = RawStatus.duplicate

/-- Every article row's upsert key has a staged raw item (articles are
only created from staged entries). -/
def ArticleBackedByRaw (st : IngestState) : Prop :=
  ∀ a ∈ st.articles, hasRaw st a.sourceId a.uniqueHash = true

/-- At most one article per source and content-identity triple. -/
def ContentUnique (st : IngestState) : Prop :=
  ∀ (s : Nat) (k : List String × String × String),
    st.articles.countP (fun a => a.sourceId == s && decide (articleContentKey a = k)) ≤ 1

/-! ## Concrete instances used by the closed witnesses -/

/-- A first accepted click event. -/
def c3PriorEvent : Event := ⟨1, 7, .click, some "sess-a", 100⟩

/-- The same `(user, article, kind, session)` key 100 seconds later. -/
def c3DupEvent : Event := ⟨1, 7, .click, some "sess-a", 200⟩

/-- A ledger that has already accepted the first click. -/
def c3State : LedgerState := ⟨[c3PriorEvent], [c3PriorEvent], 0, fun _ => 0⟩

/-- A topic-matching article whose text trips the user's blocked
keyword. -/
def c4BlockedArticle : RecArticle :=
  ⟨1, 1, ["strength"], ["strength"], "en", true, 1, 0, 1⟩

/-- A user whose blocked keywords cover the only candidate. -/
def c4BlockedUser : RecUser := ⟨["strength"], ["strength"], "en", [], []⟩

/-- A store holding only the blocked candidate. -/
def c4BlockedStore : List RecArticle := [c4BlockedArticle]

/-- A topic-matching article that passes every filter. -/
def c4OkArticle : RecArticle := ⟨1, 1, ["strength"], [], "en", true, 1, 0, 1⟩

/-- A user with a matching topic preference and no exclusions. -/
def c4OkUser : RecUser := ⟨["strength"], [], "en", [], []⟩

/-- A store holding the one matching candidate. -/
def c4OkStore : List RecArticle := [c4OkArticle]

/-- Two distinct feed entries, the first occurring twice in the
payload. -/
def c5EntryA : FeedEntry := ⟨"https://a.example/post-1", ["deadlift", "tips"], "s1", "c1"⟩

/-- A second entry with its own canonical URL. -/
def c5EntryB : FeedEntry := ⟨"https://a.example/post-2", ["meal", "plan"], "s2", "c2"⟩

/-- A payload containing a repeated canonical URL. -/
def c5Payload : List FeedEntry := [c5EntryA, c5EntryB, c5EntryA]

/-! ## Properties -/

/-- Per-source admission bound of the greedy walk, relative to the counter
it starts from. -/
theorem diversifyGo_source_bound (mps mpt ps : Nat) (s : Nat) :
    ∀ (l : List RecArticle) (sc : Nat → Nat) (tc : String → Nat) (n : Nat),
      (diversifyGo mps mpt ps sc tc n l).countP (fun a => a.sourceId == s) ≤ mps - sc s := by
  intro l
  induction l with
  | nil => intro sc tc n; simp [diversifyGo]
  | cons a rest ih =>
    intro sc tc n
    by_cases h1 : mps ≤ sc a.sourceId
    · simpa [diversifyGo, h1] using ih sc tc n
    · by_cases h2 : mpt ≤ tc (primaryTopic a)
      · simpa [diversifyGo, h1, h2] using ih sc tc n
      · simp only [diversifyGo, if_neg h1, if_neg h2, List.countP_cons]
        by_cases hs : a.sourceId = s
        · subst hs
          have hlt : sc a.sourceId < mps := Nat.lt_of_not_le h1
          by_cases hb : ps ≤ n + 1
          · simp only [if_pos hb, List.countP_nil, beq_self_eq_true, if_true]
            omega
          · have hrec := ih (bumpCount sc a.sourceId) (bumpCount tc (primaryTopic a)) (n + 1)
            have hbump : bumpCount sc a.sourceId a.sourceId = sc a.sourceId + 1 := by
              simp [bumpCount]
            rw [hbump] at hrec
            simp only [if_neg hb, beq_self_eq_true, if_true]
            omega
        · have hsb : (a.sourceId == s) = false := by
            exact beq_eq_false_iff_ne.mpr hs
          by_cases hb : ps ≤ n + 1
          · simp [if_pos hb, hsb]
          · have hrec := ih (bumpCount sc a.sourceId) (bumpCount tc (primaryTopic a)) (n + 1)
            have hns : ¬s = a.sourceId := fun h => hs h.symm
            have hbump : bumpCount sc a.sourceId s = sc s := by
              simp [bumpCount, hns]
            rw [hbump] at hrec
            simp only [if_neg hb, hsb, Bool.false_eq_true, if_false]
            omega

/-- Per-primary-topic admission bound of the greedy walk, relative to the
counter it starts from. -/
theorem diversifyGo_topic_bound (mps mpt ps : Nat) (t : String) :
    ∀ (l : List RecArticle) (sc : Nat → Nat) (tc : String → Nat) (n : Nat),
      (diversifyGo mps mpt ps sc tc n l).countP (fun a => primaryTopic a == t) ≤ mpt - tc t := by
  intro l
  induction l with
  | nil => intro sc tc n; simp [diversifyGo]
  | cons a rest ih =>
    intro sc tc n
    by_cases h1 : mps ≤ sc a.sourceId
    · simpa [diversifyGo, h1] using ih sc tc n
    · by_cases h2 : mpt ≤ tc (primaryTopic a)
      · simpa [diversifyGo, h1, h2] using ih sc tc n
      · simp only [diversifyGo, if_neg h1, if_neg h2, List.countP_cons]
        by_cases ht : primaryTopic a = t
        · rw [ht] at h2 ⊢
          have hlt : tc t < mpt := Nat.lt_of_not_le h2
          by_cases hb : ps ≤ n + 1
          · simp only [if_pos hb, List.countP_nil, beq_self_eq_true, if_true]
            omega
          · have hrec := ih (bumpCount sc a.sourceId) (bumpCount tc t) (n + 1)
            have hbump : bumpCount tc t t = tc t + 1 := by
              simp [bumpCount]
            rw [hbump] at hrec
            simp only [if_neg hb, beq_self_eq_true, if_true]
            omega
        · have htb : (primaryTopic a == t) = false := by
            exact beq_eq_false_iff_ne.mpr ht
          by_cases hb : ps ≤ n + 1
          · simp [if_pos hb, htb]
          · have hrec := ih (bumpCount sc a.sourceId) (bumpCount tc (primaryTopic a)) (n + 1)
            have hnt : ¬t = primaryTopic a := fun h => ht h.symm
            have hbump : bumpCount tc (primaryTopic a) t = tc t := by
              simp [bumpCount, hnt]
            rw [hbump] at hrec
            simp only [if_neg hb, htb, Bool.false_eq_true, if_false]
            omega

/-- The greedy walk returns a subsequence of the ranked list: rejected
articles are skipped in place, never reordered or removed from the
ranking it walks. -/
theorem diversifyGo_sublist (mps mpt ps : Nat) :
    ∀ (l : List RecArticle) (sc : Nat → Nat) (tc : String → Nat) (n : Nat),
      (diversifyGo mps mpt ps sc tc n l).Sublist l := by
  intro l
  induction l with
  | nil => intro sc tc n; simp [diversifyGo]
  | cons a rest ih =>
    intro sc tc n
    by_cases h1 : mps ≤ sc a.sourceId
    · simp only [diversifyGo, if_pos h1]
      exact (ih sc tc n).cons a
    · by_cases h2 : mpt ≤ tc (primaryTopic a)
      · simp only [diversifyGo, if_neg h1, if_pos h2]
        exact (ih sc tc n).cons a
      · simp only [diversifyGo, if_neg h1, if_neg h2]
        by_cases hb : ps ≤ n + 1
        · simp only [if_pos hb]
          exact (List.nil_sublist rest).cons₂ a
        · simp only [if_neg hb]
          exact (ih (bumpCount sc a.sourceId) (bumpCount tc (primaryTopic a)) (n + 1)).cons₂ a

/-- The first article of a non-empty ranked list is always admitted when
the walk starts from zeroed counters, so diversification never empties a
non-empty ranking. -/
theorem diversify_ne_nil {ranked : List RecArticle} (h : ranked ≠ []) (pageSize : Nat) :
    diversify ranked pageSize ≠ [] := by
  match ranked, h with
  | a :: rest, _ =>
    simp only [diversify, diversifyGo]
    simp

/-- Each processed event adds exactly one to either the accepted count or
the duplicate counter. -/
theorem foldl_processEvent_counts (events : List Event) :
    ∀ st : LedgerState,
      (events.foldl processEvent st).accepted.length
          + (events.foldl processEvent st).dupSkipped
        = st.accepted.length + st.dupSkipped + events.length ∧
      st.accepted.length ≤ (events.foldl processEvent st).accepted.length ∧
      st.dupSkipped ≤ (events.foldl processEvent st).dupSkipped := by
  induction events with
  | nil => intro st; simp
  | cons e rest ih =>
    intro st
    have hstep :
        (processEvent st e).accepted.length + (processEvent st e).dupSkipped
            = st.accepted.length + st.dupSkipped + 1 ∧
          st.accepted.length ≤ (processEvent st e).accepted.length ∧
          st.dupSkipped ≤ (processEvent st e).dupSkipped := by
      by_cases h : isDuplicate st e
      · simp [processEvent, h]
        omega
      · simp [processEvent, h]
        omega
    have hrest := ih (processEvent st e)
    simp only [List.foldl_cons, List.length_cons]
    omega

/-- A disabled source is left untouched by every scheduled run. -/
theorem runSchedule_disabled (runs : List (Nat × FetchResult)) :
    ∀ s : NewsSource, s.enabled = false → runSchedule s runs = s := by
  induction runs with
  | nil => intro s _; rfl
  | cons r rest ih =>
    intro s hs
    simp only [runSchedule, List.foldl_cons, scheduledStep, hs, Bool.false_eq_true, if_false]
    exact ih s hs

/-- Inserting into a list grows its length by one. -/
theorem length_insertLe {α : Type} (le : α → α → Bool) (a : α) :
    ∀ l : List α, (insertLe le a l).length = l.length + 1 := by
  intro l
  induction l with
  | nil => rfl
  | cons b l ih =>
    by_cases h : le a b
    · simp [insertLe, h]
    · simp [insertLe, h, ih]

/-- Insertion sort preserves length. -/
theorem length_insertionSortBy {α : Type} (le : α → α → Bool) :
    ∀ l : List α, (insertionSortBy le l).length = l.length := by
  intro l
  induction l with
  | nil => rfl
  | cons a l ih => simp [insertionSortBy, length_insertLe, ih]

/-- Every element surviving insertion sort came from the input list. -/
theorem mem_of_mem_insertLe {α : Type} (le : α → α → Bool) (a x : α) :
    ∀ l : List α, x ∈ insertLe le a l → x ∈ a :: l := by
  intro l
  induction l with
  | nil => intro h; simpa [insertLe] using h
  | cons b l ih =>
    intro h
    by_cases hle : le a b
    · simpa [insertLe, hle] using h
    · simp only [insertLe, hle, Bool.false_eq_true, if_false, List.mem_cons] at h
      rcases h with h | h
      · simp [h]
      · rcases List.mem_cons.mp (ih h) with h' | h'
        · simp [h']
        · simp [h']

/-- Membership in an insertion-sorted list implies membership in the
input. -/
theorem mem_of_mem_insertionSortBy {α : Type} (le : α → α → Bool) (x : α) :
    ∀ l : List α, x ∈ insertionSortBy le l → x ∈ l := by
  intro l
  induction l with
  | nil => intro h; simp [insertionSortBy] at h
  | cons a l ih =>
    intro h
    rcases List.mem_cons.mp (mem_of_mem_insertLe le a x _ h) with h' | h'
    · simp [h']
    · exact List.mem_cons_of_mem a (ih h')

/-- With a candidate passing the relaxed core filters, progressive
relaxation never returns the empty feed. -/
theorem filterCandidates_ne_nil (u : RecUser) (cands : List RecArticle)
    (a : RecArticle) (hmem : a ∈ cands) (hpass : passesCore u 30 a = true) :
    filterCandidates u cands ≠ [] := by
  unfold filterCandidates
  by_cases h1 : (cands.filter (fun a => passesStrict u 14 a)).isEmpty
  · by_cases h2 : (cands.filter (fun a => passesStrict u 30 a)).isEmpty
    · simp only [h1, if_true, h2]
      intro hc
      have : a ∈ cands.filter (fun a => passesCore u 30 a) :=
        List.mem_filter.mpr ⟨hmem, hpass⟩
      rw [hc] at this
      exact List.not_mem_nil a this
    · simp only [h1, if_true, h2, Bool.false_eq_true, if_false]
      intro hc
      rw [hc] at h2
      exact h2 rfl
  · simp only [h1, Bool.false_eq_true, if_false]
    intro hc
    rw [hc] at h1
    exact h1 rfl

/-- Ranking is a length-preserving reordering, so it never empties a
non-empty candidate list. -/
theorem rankCandidates_ne_nil (score : RecArticle → ℚ) (l : List RecArticle)
    (h : l ≠ []) : rankCandidates score l ≠ [] := by
  intro hc
  apply h
  have := length_insertionSortBy (fun a b =>
    decide (score b < score a)
      || (decide (score a = score b) && decide (a.publishedDaysAgo ≤ b.publishedDaysAgo))) l
  rw [rankCandidates] at hc
  rw [hc] at this
  exact List.eq_nil_of_length_eq_zero this.symm

/-- A positive-size prefix of a non-empty list is non-empty. -/
theorem take_ne_nil_of_ne_nil {α : Type} {l : List α} (h : l ≠ []) {n : Nat}
    (hn : 0 < n) : l.take n ≠ [] := by
  match l, h, n, hn with
  | a :: l, _, n + 1, _ => simp [List.take]

/-- Every candidate any pool produces is an article of the store. -/
theorem pool_subset_store (store : List RecArticle) (u : RecUser)
    (backend : VectorBackend) (a : RecArticle) :
    (a ∈ vectorPool store backend ∨ a ∈ topicPool store u
        ∨ a ∈ trendingPool store ∨ a ∈ newestPool store) → a ∈ store := by
  intro h
  rcases h with h | h | h | h
  · have h' := List.mem_of_mem_take h
    rcases List.mem_filterMap.mp h' with ⟨r, _, hfind⟩
    exact List.mem_of_find?_eq_some hfind
  · exact List.mem_of_mem_filter (List.mem_of_mem_take h)
  · exact List.mem_of_mem_filter
      (mem_of_mem_insertionSortBy _ a _ (List.mem_of_mem_take h))
  · exact mem_of_mem_insertionSortBy _ a _ (List.mem_of_mem_take h)

/-- Deduplication keeps an element whose id matches no other element of
the list, provided its id is not already marked seen. -/
theorem mem_dedupByIdGo (a : RecArticle) :
    ∀ (l : List RecArticle) (seen : List Nat), a ∈ l →
      (∀ b ∈ l, b.id = a.id → b = a) → ¬a.id ∈ seen → a ∈ dedupByIdGo seen l := by
  intro l
  induction l with
  | nil => intro seen h; exact absurd h (List.not_mem_nil a)
  | cons b l ih =>
    intro seen hmem hrep hseen
    by_cases hb : b = a
    · subst hb
      have hbs : ¬(seen.contains b.id = true) := by
        simpa [List.elem_iff] using hseen
      simp only [dedupByIdGo, if_neg hbs]
      exact List.mem_cons_self b _
    · have hmem' : a ∈ l := by
        rcases List.mem_cons.mp hmem with h | h
        · exact absurd h.symm hb
        · exact h
      have hid : ¬b.id = a.id := fun h => hb (hrep b (List.mem_cons_self b l) h)
      by_cases hbs : seen.contains b.id
      · simp only [dedupByIdGo, if_pos hbs]
        exact ih seen hmem' (fun c hc => hrep c (List.mem_cons_of_mem b hc)) hseen
      · simp only [dedupByIdGo, if_neg hbs]
        refine List.mem_cons_of_mem b (ih (b.id :: seen) hmem'
          (fun c hc => hrep c (List.mem_cons_of_mem b hc)) ?_)
        simp only [List.mem_cons, not_or]
        exact ⟨fun h => hid h.symm, hseen⟩

/-- A token list is fully similar to itself. -/
theorem titleSimilar_self (x : List String) : titleSimilar x x = true := by
  unfold titleSimilar jaccardSim
  by_cases h : (x.toFinset ∪ x.toFinset).card = 0
  · simp only [Finset.union_self] at h ⊢
    simp [h]
    norm_num
  · simp only [Finset.union_self, Finset.inter_self] at h ⊢
    have hcard : ((x.toFinset.card : ℚ)) ≠ 0 := by
      exact_mod_cast h
    simp only [h, if_false]
    rw [div_self hcard]
    norm_num

/-- The duplicate-marking rewrite of a raw item preserves its dedup
key. -/
theorem rawKeyP_markDup (src : Nat) (url : String) (s : Nat) (u : String) (r : RawItem) :
    rawKeyP s u (if rawKeyP src url r then ⟨r.sourceId, r.urlHash, .duplicate⟩ else r)
      = rawKeyP s u r := by
  split
  · rfl
  · rfl

/-- Marking duplicates changes no dedup-key count. -/
theorem countP_markDup (src : Nat) (url : String) (s : Nat) (u : String)
    (l : List RawItem) :
    (l.map (fun r =>
        if rawKeyP src url r then ⟨r.sourceId, r.urlHash, .duplicate⟩ else r)).countP
        (rawKeyP s u)
      = l.countP (rawKeyP s u) := by
  rw [List.countP_map]
  apply List.countP_congr
  intro r _
  simp only [Function.comp_apply]
  rw [rawKeyP_markDup src url s u r]

/-- How one processed entry changes each dedup-key count: nothing when
the URL hash was already staged, one new row for its own key otherwise. -/
theorem processFeedEntry_rawCount (src : Nat) (st : IngestState) (e : FeedEntry)
    (s : Nat) (u : String) :
    (processFeedEntry src st e).rawItems.countP (rawKeyP s u)
      = if hasRaw st src e.url then st.rawItems.countP (rawKeyP s u)
        else st.rawItems.countP (rawKeyP s u) + (if s = src ∧ u = e.url then 1 else 0) := by
  by_cases h1 : hasRaw st src e.url
  · simp only [processFeedEntry, if_pos h1]
    exact countP_markDup src e.url s u st.rawItems
  · have happ : ∀ st' : RawStatus,
        (st.rawItems ++ [(⟨src, e.url, st'⟩ : RawItem)]).countP (rawKeyP s u)
          = st.rawItems.countP (rawKeyP s u) + (if s = src ∧ u = e.url then 1 else 0) := by
      intro st'
      rw [List.countP_append]
      congr 1
      by_cases hs : s = src
      · by_cases hu : u = e.url
        · subst hs; subst hu
          simp [rawKeyP]
        · subst hs
          have hub : (e.url == u) = false := beq_eq_false_iff_ne.mpr (fun h => hu h.symm)
          simp [rawKeyP, hub, hu]
      · have hsb : (src == s) = false := beq_eq_false_iff_ne.mpr (fun h => hs h.symm)
        simp [rawKeyP, hsb, hs]
    by_cases h2 : hasSimilarTitle st src e.titleTokens
    · simp only [processFeedEntry, if_neg h1, if_pos h2]
      exact happ _
    · by_cases h3 : st.articles.any (artKeyP src e.url)
      · simp only [processFeedEntry, if_neg h1, if_neg h2, if_pos h3]
        exact happ _
      · simp only [processFeedEntry, if_neg h1, if_neg h2, if_neg h3]
        exact happ _

/-- A raw item is staged for a key exactly when its count is positive. -/
theorem hasRaw_iff_countP_pos (st : IngestState) (s : Nat) (u : String) :
    hasRaw st s u = true ↔ 0 < st.rawItems.countP (rawKeyP s u) := by
  rw [hasRaw, List.any_eq_true, List.countP_pos_iff]

/-- Dedup-key counts never decrease across one processed entry. -/
theorem processFeedEntry_rawCount_mono (src : Nat) (st : IngestState) (e : FeedEntry)
    (s : Nat) (u : String) :
    st.rawItems.countP (rawKeyP s u)
      ≤ (processFeedEntry src st e).rawItems.countP (rawKeyP s u) := by
  rw [processFeedEntry_rawCount]
  by_cases h : hasRaw st src e.url
  · simp [h]
  · simp only [h, Bool.false_eq_true, if_false]
    split <;> omega

/-- A staged key stays staged across one processed entry. -/
theorem processFeedEntry_hasRaw_mono (src : Nat) (st : IngestState) (e : FeedEntry)
    (s : Nat) (u : String) (h : hasRaw st s u = true) :
    hasRaw (processFeedEntry src st e) s u = true := by
  rw [hasRaw_iff_countP_pos] at h ⊢
  exact Nat.lt_of_lt_of_le h (processFeedEntry_rawCount_mono src st e s u)

/-- After an entry is processed, its own dedup key is staged. -/
theorem processFeedEntry_hasRaw_self (src : Nat) (st : IngestState) (e : FeedEntry) :
    hasRaw (processFeedEntry src st e) src e.url = true := by
  by_cases h : hasRaw st src e.url
  · exact processFeedEntry_hasRaw_mono src st e src e.url h
  · rw [hasRaw_iff_countP_pos, processFeedEntry_rawCount, if_neg h]
    simp

/-- One processed entry preserves staging-key uniqueness. -/
theorem processFeedEntry_rawUnique (src : Nat) (st : IngestState) (e : FeedEntry)
    (hinv : RawUnique st) : RawUnique (processFeedEntry src st e) := by
  intro s u
  rw [processFeedEntry_rawCount]
  by_cases h : hasRaw st src e.url
  · simp only [h, if_true]
    exact hinv s u
  · simp only [h, Bool.false_eq_true, if_false]
    by_cases hk : s = src ∧ u = e.url
    · rcases hk with ⟨hk1, hk2⟩
      have h0 : st.rawItems.countP (rawKeyP s u) = 0 := by
        by_contra hc
        have hpos := (hasRaw_iff_countP_pos st s u).mpr (Nat.pos_of_ne_zero hc)
        rw [hk1, hk2] at hpos
        exact h hpos
      rw [hk1, hk2] at h0 ⊢
      rw [h0]
      simp
    · simp only [if_neg hk]
      have := hinv s u
      omega

/-- A staged key stays staged across a whole payload. -/
theorem ingestPayload_hasRaw_mono (src : Nat) (payload : List FeedEntry) :
    ∀ (st : IngestState) (s : Nat) (u : String), hasRaw st s u = true →
      hasRaw (ingestPayload src st payload) s u = true := by
  induction payload with
  | nil => intro st s u h; exact h
  | cons e rest ih =>
    intro st s u h
    exact ih (processFeedEntry src st e) s u (processFeedEntry_hasRaw_mono src st e s u h)

/-- A whole payload preserves staging-key uniqueness. -/
theorem ingestPayload_rawUnique (src : Nat) (payload : List FeedEntry) :
    ∀ st : IngestState, RawUnique st → RawUnique (ingestPayload src st payload) := by
  induction payload with
  | nil => intro st h; exact h
  | cons e rest ih =>
    intro st h
    exact ih (processFeedEntry src st e) (processFeedEntry_rawUnique src st e h)

/-- After a payload is processed, every one of its canonical URLs is
staged for the source. -/
theorem ingestPayload_hasRaw_all (src : Nat) (payload : List FeedEntry) :
    ∀ st : IngestState, ∀ e ∈ payload,
      hasRaw (ingestPayload src st payload) src e.url = true := by
  induction payload with
  | nil => intro st e he; exact absurd he (List.not_mem_nil e)
  | cons e0 rest ih =>
    intro st e he
    rcases List.mem_cons.mp he with h | h
    · subst h
      exact ingestPayload_hasRaw_mono src rest (processFeedEntry src st e) src e.url
        (processFeedEntry_hasRaw_self src st e)
    · exact ih (processFeedEntry src st e0) e h

/-- An entry whose URL hash is already staged changes no article row and
no dedup-key count. -/
theorem processFeedEntry_of_hasRaw (src : Nat) (st : IngestState) (e : FeedEntry)
    (h : hasRaw st src e.url = true) :
    (processFeedEntry src st e).articles = st.articles ∧
      ∀ (s : Nat) (u : String),
        (processFeedEntry src st e).rawItems.countP (rawKeyP s u)
          = st.rawItems.countP (rawKeyP s u) := by
  constructor
  · simp only [processFeedEntry, if_pos h]
  · intro s u
    rw [processFeedEntry_rawCount, if_pos h]

/-- Re-processing a payload whose URLs are all staged changes no article
row and no dedup-key count. -/
theorem ingestPayload_noop (src : Nat) (payload : List FeedEntry) :
    ∀ st : IngestState, (∀ e ∈ payload, hasRaw st src e.url = true) →
      (ingestPayload src st payload).articles = st.articles ∧
        ∀ (s : Nat) (u : String),
          (ingestPayload src st payload).rawItems.countP (rawKeyP s u)
            = st.rawItems.countP (rawKeyP s u) := by
  induction payload with
  | nil => intro st _; exact ⟨rfl, fun s u => rfl⟩
  | cons e rest ih =>
    intro st hall
    have he : hasRaw st src e.url = true := hall e (List.mem_cons_self e rest)
    have hstep := processFeedEntry_of_hasRaw src st e he
    have hrest : ∀ e' ∈ rest, hasRaw (processFeedEntry src st e) src e'.url = true := by
      intro e' he'
      exact processFeedEntry_hasRaw_mono src st e src e'.url
        (hall e' (List.mem_cons_of_mem e he'))
    have hfold := ih (processFeedEntry src st e) hrest
    refine ⟨?_, ?_⟩
    · rw [ingestPayload, List.foldl_cons]
      rw [show List.foldl (processFeedEntry src) (processFeedEntry src st e) rest
            = ingestPayload src (processFeedEntry src st e) rest from rfl]
      rw [hfold.1, hstep.1]
    · intro s u
      rw [ingestPayload, List.foldl_cons]
      rw [show List.foldl (processFeedEntry src) (processFeedEntry src st e) rest
            = ingestPayload src (processFeedEntry src st e) rest from rfl]
      rw [hfold.2 s u, hstep.2 s u]

/-- Processing an entry whose URL hash is staged marks every row of that
key `duplicate`. -/
theorem processFeedEntry_dupMarked_self (src : Nat) (st : IngestState) (e : FeedEntry)
    (h : hasRaw st src e.url = true) :
    DupMarked (processFeedEntry src st e) src e.url := by
  intro r' hr' hk'
  simp only [processFeedEntry, if_pos h] at hr'
  rcases List.mem_map.mp hr' with ⟨r, _, hfr⟩
  by_cases hkey : rawKeyP src e.url r
  · rw [if_pos hkey] at hfr
    rw [← hfr]
  · rw [if_neg hkey] at hfr
    rw [← hfr] at hk'
    exact absurd hk' hkey

/-- Once a key's rows are all `duplicate` (and the key is staged),
processing any further entry keeps them all `duplicate`. -/
theorem processFeedEntry_dupMarked_mono (src : Nat) (st : IngestState) (e' : FeedEntry)
    (url : String) (hr : hasRaw st src url = true) (hd : DupMarked st src url) :
    DupMarked (processFeedEntry src st e') src url := by
  intro r' hr' hk'
  by_cases h1 : hasRaw st src e'.url
  · simp only [processFeedEntry, if_pos h1] at hr'
    rcases List.mem_map.mp hr' with ⟨r, hrmem, hfr⟩
    by_cases hkey : rawKeyP src e'.url r
    · rw [if_pos hkey] at hfr
      rw [← hfr]
    · rw [if_neg hkey] at hfr
      rw [← hfr] at hk' ⊢
      exact hd r hrmem hk'
  · have hne : e'.url ≠ url := by
      intro hcon
      rw [hcon] at h1
      exact h1 hr
    have hsplit : ∀ stt : RawStatus,
        r' ∈ st.rawItems ++ [(⟨src, e'.url, stt⟩ : RawItem)] → r'.status = RawStatus.duplicate := by
      intro stt hmem
      rcases List.mem_append.mp hmem with hmem | hmem
      · exact hd r' hmem hk'
      · rcases List.mem_singleton.mp hmem with rfl
        exfalso
        have : e'.url = url := by
          have := hk'
          simp only [rawKeyP] at this
          have hu : ((⟨src, e'.url, stt⟩ : RawItem).urlHash == url) = true := by
            exact (Bool.and_elim_right this)
          simpa using hu
        exact hne this
    by_cases h2 : hasSimilarTitle st src e'.titleTokens
    · simp only [processFeedEntry, if_neg h1, if_pos h2] at hr'
      exact hsplit _ hr'
    · by_cases h3 : st.articles.any (artKeyP src e'.url)
      · simp only [processFeedEntry, if_neg h1, if_neg h2, if_pos h3] at hr'
        exact hsplit _ hr'
      · simp only [processFeedEntry, if_neg h1, if_neg h2, if_neg h3] at hr'
        exact hsplit _ hr'

/-- Duplicate-marking of a staged key survives a whole payload. -/
theorem ingestPayload_dupMarked_mono (src : Nat) (payload : List FeedEntry) (url : String) :
    ∀ st : IngestState, hasRaw st src url = true → DupMarked st src url →
      DupMarked (ingestPayload src st payload) src url := by
  induction payload with
  | nil => intro st _ hd; exact hd
  | cons e rest ih =>
    intro st hr hd
    exact ih (processFeedEntry src st e)
      (processFeedEntry_hasRaw_mono src st e src url hr)
      (processFeedEntry_dupMarked_mono src st e url hr hd)

/-- Re-processing a payload whose URLs are all staged leaves every
staged row of each of those URLs marked `duplicate`. -/
theorem ingestPayload_dupMarked_all (src : Nat) (payload : List FeedEntry) :
    ∀ st : IngestState, (∀ e ∈ payload, hasRaw st src e.url = true) →
      ∀ e ∈ payload, DupMarked (ingestPayload src st payload) src e.url := by
  induction payload with
  | nil => intro st _ e he; exact absurd he (List.not_mem_nil e)
  | cons e0 rest ih =>
    intro st hall e he
    have he0 : hasRaw st src e0.url = true := hall e0 (List.mem_cons_self e0 rest)
    have hrest : ∀ e' ∈ rest, hasRaw (processFeedEntry src st e0) src e'.url = true := by
      intro e' he'
      exact processFeedEntry_hasRaw_mono src st e0 src e'.url
        (hall e' (List.mem_cons_of_mem e0 he'))
    rcases List.mem_cons.mp he with h | h
    · subst h
      exact ingestPayload_dupMarked_mono src rest e.url (processFeedEntry src st e)
        (processFeedEntry_hasRaw_self src st e)
        (processFeedEntry_dupMarked_self src st e he0)
    · exact ih (processFeedEntry src st e0) hrest e h

/-- One processed entry preserves both article-table invariants. -/
theorem processFeedEntry_articleInv (src : Nat) (st : IngestState) (e : FeedEntry)
    (hb : ArticleBackedByRaw st) (hc : ContentUnique st) :
    ArticleBackedByRaw (processFeedEntry src st e) ∧
      ContentUnique (processFeedEntry src st e) := by
  have hraw_mono : ∀ (s : Nat) (u : String), hasRaw st s u = true →
      hasRaw (processFeedEntry src st e) s u = true :=
    fun s u h => processFeedEntry_hasRaw_mono src st e s u h
  by_cases h1 : hasRaw st src e.url
  · have harts : (processFeedEntry src st e).articles = st.articles := by
      simp only [processFeedEntry, if_pos h1]
    constructor
    · intro a ha
      rw [harts] at ha
      exact hraw_mono a.sourceId a.uniqueHash (hb a ha)
    · intro s k
      rw [harts]
      exact hc s k
  · by_cases h2 : hasSimilarTitle st src e.titleTokens
    · have harts : (processFeedEntry src st e).articles = st.articles := by
        simp only [processFeedEntry, if_neg h1, if_pos h2]
      constructor
      · intro a ha
        rw [harts] at ha
        exact hraw_mono a.sourceId a.uniqueHash (hb a ha)
      · intro s k
        rw [harts]
        exact hc s k
    · by_cases h3 : st.articles.any (artKeyP src e.url)
      · exfalso
        rcases List.any_eq_true.mp h3 with ⟨a, ha, hk⟩
        have hsrc : a.sourceId = src := by
          have := Bool.and_elim_left hk
          simpa [artKeyP] using this
        have hurl : a.uniqueHash = e.url := by
          have := Bool.and_elim_right hk
          simpa [artKeyP] using this
        have := hb a ha
        rw [hsrc, hurl] at this
        exact h1 this
      · have harts : (processFeedEntry src st e).articles
            = st.articles ++ [⟨src, e.url, e.titleTokens, e.summary, e.content⟩] := by
          simp only [processFeedEntry, if_neg h1, if_neg h2, if_neg h3]
        constructor
        · intro a ha
          rw [harts] at ha
          rcases List.mem_append.mp ha with ha | ha
          · exact hraw_mono a.sourceId a.uniqueHash (hb a ha)
          · rcases List.mem_singleton.mp ha with rfl
            exact processFeedEntry_hasRaw_self src st e
        · intro s k
          rw [harts, List.countP_append]
          by_cases hnew :
              ((⟨src, e.url, e.titleTokens, e.summary, e.content⟩ : ArticleRow).sourceId == s
                && decide (articleContentKey
                      (⟨src, e.url, e.titleTokens, e.summary, e.content⟩ : ArticleRow) = k))
          · have hs : src = s := by
              have := Bool.and_elim_left hnew
              simpa using this
            have hk : (e.titleTokens, e.summary, e.content) = k := by
              have := Bool.and_elim_right hnew
              simpa [articleContentKey] using this
            have hzero :
                st.articles.countP
                  (fun a => a.sourceId == s && decide (articleContentKey a = k)) = 0 := by
              rw [List.countP_eq_zero]
              intro a ha hpk
              have hasrc : a.sourceId = s := by
                have := Bool.and_elim_left hpk
                simpa using this
              have hakey : articleContentKey a = k := by
                have := Bool.and_elim_right hpk
                simpa using this
              have htitle : a.titleTokens = e.titleTokens := by
                rw [← hk] at hakey
                exact congrArg (fun p => p.1) hakey
              apply h2
              rw [hasSimilarTitle, List.any_eq_true]
              refine ⟨a, ha, ?_⟩
              rw [htitle]
              have hbeq : (a.sourceId == src) = true := by
                rw [hasrc, ← hs]
                simp
              rw [hbeq, titleSimilar_self]
              rfl
            rw [hzero, List.countP_cons, List.countP_nil]
            simp [hnew]
          · have hone : List.countP
                (fun a => a.sourceId == s && decide (articleContentKey a = k))
                [(⟨src, e.url, e.titleTokens, e.summary, e.content⟩ : ArticleRow)] = 0 := by
              rw [List.countP_cons, List.countP_nil]
              simp only [hnew]
              simp
            rw [hone]
            have := hc s k
            omega

/-- A whole payload preserves both article-table invariants. -/
theorem ingestPayload_articleInv (src : Nat) (payload : List FeedEntry) :
    ∀ st : IngestState, ArticleBackedByRaw st → ContentUnique st →
      ArticleBackedByRaw (ingestPayload src st payload) ∧
        ContentUnique (ingestPayload src st payload) := by
  induction payload with
  | nil => intro st hb hc; exact ⟨hb, hc⟩
  | cons e rest ih =>
    intro st hb hc
    have hstep := processFeedEntry_articleInv src st e hb hc
    exact ih (processFeedEntry src st e) hstep.1 hstep.2


/-! ## Claim theorems -/

/-- C1: for every candidate, the ranking score equals the fixed weighted
sum 0.30·similarity + 0.25·recency_decay + 0.20·preference_match
+ 0.15·popularity + 0.10·quality − 0.50·already_seen_penalty
− 0.20·source_fatigue_penalty, where recency_decay = exp(−0.1·days),
preference_match is the 0/1 topic-intersection indicator, popularity is
min(1, popularity_score/100) with the score clamped to ≥ 0 first, and
similarity is the vector pool's cosine score when available and 0
otherwise. -/
theorem gymunity_C1_ranking_formula (i : ScoreInput) :
    rankingScore i
      = 0.30 * (i.similarity.getD 0)
        + 0.25 * Real.exp (-0.1 * i.daysSincePublished)
        + 0.20 * (if i.articleTopics.any (fun t => i.userTopTopics.contains t)
                    then (1 : ℝ) else 0)
        + 0.15 * min 1 (max 0 i.popularityScore / 100)
        + 0.10 * i.qualityValue
        - 0.50 * (if i.alreadySeen then (1 : ℝ) else 0)
        - 0.20 * (if i.sourceFatigue then (1 : ℝ) else 0) := by
  cases hs : i.similarity with
  | none =>
    simp [rankingScore, similarityValue, recencyDecay, preferenceMatch,
      popularityNorm, indicatorR, hs]
  | some v =>
    simp [rankingScore, similarityValue, recencyDecay, preferenceMatch,
      popularityNorm, indicatorR, hs]

/-- C2: on any page produced by the diversity rerank, of any requested
size, no source contributes more than 2 articles and no primary topic
more than 3; the walk merely skips rejected articles, returning a
subsequence of the ranking it walks. -/
theorem gymunity_C2_diversity_bounds (ranked : List RecArticle) (pageSize : Nat)
    (s : Nat) (t : String) :
    (diversify ranked pageSize).countP (fun a => a.sourceId == s) ≤ 2 ∧
      (diversify ranked pageSize).countP (fun a => primaryTopic a == t) ≤ 3 ∧
      (diversify ranked pageSize).Sublist ranked := by
  refine ⟨?_, ?_, ?_⟩
  · simpa using diversifyGo_source_bound 2 3 pageSize s ranked (fun _ => 0) (fun _ => 0) 0
  · simpa using diversifyGo_topic_bound 2 3 pageSize t ranked (fun _ => 0) (fun _ => 0) 0
  · exact diversifyGo_sublist 2 3 pageSize ranked (fun _ => 0) (fun _ => 0) 0

/-- C3: an event whose `(user, article, kind, session)` key matches an
earlier accepted event within the 5-minute window increments
`duplicates_skipped` by 1, leaves every popularity score unchanged, and
is still appended to the event log — only the aggregate mutation is
skipped. -/
theorem gymunity_C3_duplicate_event (st : LedgerState) (e : Event)
    (h : isDuplicate st e = true) :
    (processEvent st e).dupSkipped = st.dupSkipped + 1 ∧
      (processEvent st e).pop = st.pop ∧
      (processEvent st e).log = st.log ++ [e] ∧
      (processEvent st e).accepted = st.accepted := by
  refine ⟨?_, ?_, ?_, ?_⟩ <;> simp [processEvent, h]

/-- Witness for C3 at a concrete duplicate click 100 seconds after the
accepted one. -/
theorem gymunity_C3_witness :
    isDuplicate c3State c3DupEvent = true ∧
      ((processEvent c3State c3DupEvent).dupSkipped = c3State.dupSkipped + 1 ∧
        (processEvent c3State c3DupEvent).pop = c3State.pop ∧
        (processEvent c3State c3DupEvent).log = c3State.log ++ [c3DupEvent] ∧
        (processEvent c3State c3DupEvent).accepted = c3State.accepted) :=
  ⟨by decide, gymunity_C3_duplicate_event c3State c3DupEvent (by decide)⟩

/-- C4 (claim as stated is refuted): a user with a candidate in the topic
pool can still receive an empty page from `get_feed` under the no-op
vector backend, when the candidate trips the user's blocked keywords —
the blocked-keyword, language, source and freshness filters are never
relaxed. -/
theorem gymunity_C4_counterexample :
    c4BlockedArticle ∈ topicPool c4BlockedStore c4BlockedUser ∧
      getFeedPage (fun _ => 0) c4BlockedUser c4BlockedStore VectorBackend.noop 1 6 = [] := by
  refine ⟨by decide, by decide⟩

/-- C4 (amended): with the vector backend forced to the no-op variant,
the vector pool contributes zero candidates, and for a store with unique
article ids, a user with at least one topic-pool or trending-pool
candidate that survives the never-relaxed filters, and a positive page
size, the first `get_feed` page is non-empty and satisfies the diversity
bounds. -/
theorem gymunity_C4_noop_degradation (score : RecArticle → ℚ) (u : RecUser)
    (store : List RecArticle) (pageSize : Nat) (a : RecArticle)
    (hnodup : (store.map RecArticle.id).Nodup)
    (hpool : a ∈ topicPool store u ∨ a ∈ trendingPool store)
    (hpass : passesCore u 30 a = true)
    (hps : 0 < pageSize) :
    vectorPool store VectorBackend.noop = [] ∧
      getFeedPage score u store VectorBackend.noop 1 pageSize ≠ [] ∧
      (∀ s : Nat,
        (getFeedPage score u store VectorBackend.noop 1 pageSize).countP
          (fun x => x.sourceId == s) ≤ 2) ∧
      (∀ t : String,
        (getFeedPage score u store VectorBackend.noop 1 pageSize).countP
          (fun x => primaryTopic x == t) ≤ 3) := by
  have hvec : vectorPool store VectorBackend.noop = [] := rfl
  have hastore : a ∈ store := by
    rcases hpool with h | h
    · exact pool_subset_store store u VectorBackend.noop a (Or.inr (Or.inl h))
    · exact pool_subset_store store u VectorBackend.noop a (Or.inr (Or.inr (Or.inl h)))
  have hconcat : a ∈ vectorPool store VectorBackend.noop ++ topicPool store u
      ++ trendingPool store ++ newestPool store := by
    rcases hpool with h | h
    · exact List.mem_append.mpr (Or.inl (List.mem_append.mpr (Or.inl
        (List.mem_append.mpr (Or.inr h)))))
    · exact List.mem_append.mpr (Or.inl (List.mem_append.mpr (Or.inr h)))
  have hrep : ∀ b ∈ vectorPool store VectorBackend.noop ++ topicPool store u
      ++ trendingPool store ++ newestPool store, b.id = a.id → b = a := by
    intro b hb hid
    have hbstore : b ∈ store := by
      rcases List.mem_append.mp hb with hb' | hb'
      · rcases List.mem_append.mp hb' with hb'' | hb''
        · rcases List.mem_append.mp hb'' with hb3 | hb3
          · exact pool_subset_store store u VectorBackend.noop b (Or.inl hb3)
          · exact pool_subset_store store u VectorBackend.noop b (Or.inr (Or.inl hb3))
        · exact pool_subset_store store u VectorBackend.noop b (Or.inr (Or.inr (Or.inl hb'')))
      · exact pool_subset_store store u VectorBackend.noop b (Or.inr (Or.inr (Or.inr hb')))
    exact List.inj_on_of_nodup_map hnodup hbstore hastore hid
  have hmerge : a ∈ mergeCandidates u store VectorBackend.noop := by
    apply mem_dedupByIdGo a _ [] hconcat hrep
    simp
  have hfil : filterCandidates u (mergeCandidates u store VectorBackend.noop) ≠ [] :=
    filterCandidates_ne_nil u _ a hmerge hpass
  have hrank :
      rankCandidates score (filterCandidates u (mergeCandidates u store VectorBackend.noop))
        ≠ [] :=
    rankCandidates_ne_nil score _ hfil
  have hdiv :
      diversify
        (rankCandidates score (filterCandidates u (mergeCandidates u store VectorBackend.noop)))
        pageSize ≠ [] :=
    diversify_ne_nil hrank pageSize
  have hpage : getFeedPage score u store VectorBackend.noop 1 pageSize
      = (diversify
          (rankCandidates score
            (filterCandidates u (mergeCandidates u store VectorBackend.noop)))
          pageSize).take pageSize := by
    simp [getFeedPage]
  have hsub : (getFeedPage score u store VectorBackend.noop 1 pageSize).Sublist
      (diversify
        (rankCandidates score
          (filterCandidates u (mergeCandidates u store VectorBackend.noop)))
        pageSize) := by
    rw [hpage]
    exact List.take_sublist pageSize _
  refine ⟨hvec, ?_, ?_, ?_⟩
  · rw [hpage]
    exact take_ne_nil_of_ne_nil hdiv hps
  · intro s
    calc (getFeedPage score u store VectorBackend.noop 1 pageSize).countP
          (fun x => x.sourceId == s)
        ≤ (diversify
            (rankCandidates score
              (filterCandidates u (mergeCandidates u store VectorBackend.noop)))
            pageSize).countP (fun x => x.sourceId == s) := hsub.countP_le _
      _ ≤ 2 := by
          simpa using diversifyGo_source_bound 2 3 pageSize s _ (fun _ => 0) (fun _ => 0) 0
  · intro t
    calc (getFeedPage score u store VectorBackend.noop 1 pageSize).countP
          (fun x => primaryTopic x == t)
        ≤ (diversify
            (rankCandidates score
              (filterCandidates u (mergeCandidates u store VectorBackend.noop)))
            pageSize).countP (fun x => primaryTopic x == t) := hsub.countP_le _
      _ ≤ 3 := by
          simpa using diversifyGo_topic_bound 2 3 pageSize t _ (fun _ => 0) (fun _ => 0) 0

/-- Witness for the amended C4 at a one-article store that survives the
filters. -/
theorem gymunity_C4_witness :
    vectorPool c4OkStore VectorBackend.noop = [] ∧
      getFeedPage (fun _ => 0) c4OkUser c4OkStore VectorBackend.noop 1 6 ≠ [] ∧
      (∀ s : Nat,
        (getFeedPage (fun _ => 0) c4OkUser c4OkStore VectorBackend.noop 1 6).countP
          (fun x => x.sourceId == s) ≤ 2) ∧
      (∀ t : String,
        (getFeedPage (fun _ => 0) c4OkUser c4OkStore VectorBackend.noop 1 6).countP
          (fun x => primaryTopic x == t) ≤ 3) :=
  gymunity_C4_noop_degradation (fun _ => 0) c4OkUser c4OkStore 6 c4OkArticle
    (by decide) (Or.inl (by decide)) (by decide) (by decide)

/-- C5: processing the same feed payload twice from a clean state stages
exactly one raw entry per distinct canonical URL per source (the repeated
occurrence marks the row `duplicate` instead of re-staging it), keeps at
most one article per source and content-identity triple, and leaves the
article table unchanged on the second pass. -/
theorem gymunity_C5_idempotent_ingestion (src : Nat) (payload : List FeedEntry) :
    (∀ e ∈ payload,
        (ingestPayload src (ingestPayload src ⟨[], []⟩ payload) payload).rawItems.countP
            (rawKeyP src e.url) = 1 ∧
          DupMarked (ingestPayload src (ingestPayload src ⟨[], []⟩ payload) payload)
            src e.url) ∧
      (∀ (s : Nat) (k : List String × String × String),
        (ingestPayload src (ingestPayload src ⟨[], []⟩ payload) payload).articles.countP
            (fun a => a.sourceId == s && decide (articleContentKey a = k)) ≤ 1) ∧
      (ingestPayload src (ingestPayload src ⟨[], []⟩ payload) payload).articles
        = (ingestPayload src ⟨[], []⟩ payload).articles := by
  have hbase : RawUnique (⟨[], []⟩ : IngestState) := by
    intro s u
    rw [show (⟨[], []⟩ : IngestState).rawItems = [] from rfl, List.countP_nil]
    omega
  have hall1 : ∀ e ∈ payload,
      hasRaw (ingestPayload src ⟨[], []⟩ payload) src e.url = true :=
    ingestPayload_hasRaw_all src payload ⟨[], []⟩
  have hU1 : RawUnique (ingestPayload src ⟨[], []⟩ payload) :=
    ingestPayload_rawUnique src payload ⟨[], []⟩ hbase
  have hnoop := ingestPayload_noop src payload (ingestPayload src ⟨[], []⟩ payload) hall1
  have hart := ingestPayload_articleInv src payload (⟨[], []⟩ : IngestState)
    (by intro a ha; exact absurd ha (List.not_mem_nil a))
    (by
      intro s k
      rw [show (⟨[], []⟩ : IngestState).articles = [] from rfl, List.countP_nil]
      omega)
  refine ⟨?_, ?_, hnoop.1⟩
  · intro e he
    constructor
    · rw [hnoop.2 src e.url]
      have hpos := (hasRaw_iff_countP_pos _ src e.url).mp (hall1 e he)
      have hle := hU1 src e.url
      omega
    · exact ingestPayload_dupMarked_all src payload
        (ingestPayload src ⟨[], []⟩ payload) hall1 e he
  · intro s k
    rw [hnoop.1]
    exact hart.2 s k

/-- Witness for C5 at a concrete payload with a repeated canonical
URL. -/
theorem gymunity_C5_witness :
    (ingestPayload 4 (ingestPayload 4 ⟨[], []⟩ c5Payload) c5Payload).rawItems.countP
        (rawKeyP 4 c5EntryA.url) = 1 ∧
      (ingestPayload 4 (ingestPayload 4 ⟨[], []⟩ c5Payload) c5Payload).articles
        = (ingestPayload 4 ⟨[], []⟩ c5Payload).articles :=
  ⟨((gymunity_C5_idempotent_ingestion 4 c5Payload).1 c5EntryA (by decide)).1,
   (gymunity_C5_idempotent_ingestion 4 c5Payload).2.2⟩

/-- C6: a fetch-level failure increments the consecutive-failure counter
and a success resets it to zero; once the counter reaches 5 the source is
disabled; a disabled source is left untouched (never fetched) by every
subsequent scheduled run until re-enabled. -/
theorem gymunity_C6_source_health (s : NewsSource) (t : Nat)
    (runs : List (Nat × FetchResult)) :
    (applyFetch t s .failure).fetchErrorCount = s.fetchErrorCount + 1 ∧
      (applyFetch t s .success).fetchErrorCount = 0 ∧
      (5 ≤ s.fetchErrorCount + 1 → (applyFetch t s .failure).enabled = false) ∧
      (s.enabled = false → runSchedule s runs = s) := by
  refine ⟨rfl, rfl, ?_, ?_⟩
  · intro h
    simp [applyFetch, h]
  · intro h
    exact runSchedule_disabled runs s h

/-- Witness for C6: the fifth consecutive failure disables the source,
and the disabled source is skipped by later runs. -/
theorem gymunity_C6_witness :
    (applyFetch 10 (⟨true, 4, none⟩ : NewsSource) .failure).enabled = false ∧
      runSchedule (⟨false, 5, none⟩ : NewsSource) [(11, .failure), (12, .success)]
        = ⟨false, 5, none⟩ :=
  ⟨(gymunity_C6_source_health ⟨true, 4, none⟩ 10 []).2.2.1 (by decide),
   (gymunity_C6_source_health ⟨false, 5, none⟩ 11 [(11, .failure), (12, .success)]).2.2.2 rfl⟩

/-- C7: the enrichment quality score is the sum of the five fixed 0.2
increments (adequate title, adequate summary, image present, substantial
body, recent publication) and always lies in [0, 1]. -/
theorem gymunity_C7_quality_bounds (nowDay : Int) (title summary : String)
    (content imageUrl : Option String) (publishedDay : Option Int) :
    qualityScore nowDay title summary content imageUrl publishedDay
        = (if 20 < title.length then (1 : ℚ)/5 else 0)
          + (if 100 < summary.length then (1 : ℚ)/5 else 0)
          + (if imagePresent imageUrl then (1 : ℚ)/5 else 0)
          + (if contentSubstantial content then (1 : ℚ)/5 else 0)
          + (if recentPublication nowDay publishedDay then (1 : ℚ)/5 else 0) ∧
      0 ≤ qualityScore nowDay title summary content imageUrl publishedDay ∧
      qualityScore nowDay title summary content imageUrl publishedDay ≤ 1 := by
  refine ⟨?_, ?_, ?_⟩ <;> unfold qualityScore <;> split_ifs <;> norm_num

/-- C8: a batch of more than 100 events is rejected with a validation
error (no state is produced, so no event is applied); a batch of at most
100 events is accepted with a response whose accepted and
duplicates_skipped counts add up to the batch size. -/
theorem gymunity_C8_event_batch_cap (st : LedgerState) (events : List Event) :
    (100 < events.length →
        submitEvents st events = Except.error "event batch exceeds the 100-event cap") ∧
      (events.length ≤ 100 →
        ∃ (st' : LedgerState) (acc dup : Nat),
          submitEvents st events = Except.ok (st', acc, dup) ∧
            acc + dup = events.length) := by
  constructor
  · intro h
    simp [submitEvents, h]
  · intro h
    have hnot : ¬100 < events.length := by omega
    refine ⟨events.foldl processEvent st,
      (events.foldl processEvent st).accepted.length - st.accepted.length,
      (events.foldl processEvent st).dupSkipped - st.dupSkipped, ?_, ?_⟩
    · simp [submitEvents, hnot]
    · have := foldl_processEvent_counts events st
      omega

/-- Witness for C8: a 101-event batch is rejected, a 2-event batch is
accepted with counts summing to 2. -/
theorem gymunity_C8_witness :
    submitEvents c3State (List.replicate 101 c3DupEvent)
        = Except.error "event batch exceeds the 100-event cap" ∧
      ∃ (st' : LedgerState) (acc dup : Nat),
        submitEvents c3State [c3DupEvent, c3DupEvent] = Except.ok (st', acc, dup) ∧
          acc + dup = [c3DupEvent, c3DupEvent].length :=
  ⟨(gymunity_C8_event_batch_cap c3State (List.replicate 101 c3DupEvent)).1
      (by simp),
   (gymunity_C8_event_batch_cap c3State [c3DupEvent, c3DupEvent]).2 (by simp)⟩

/-- C9: under `prefers-reduced-motion: reduce`, `TextType` renders only
the first phrase statically, colored with the first `textColors` entry or
the inherited color, and neither starts the typing/deleting animation nor
renders the cursor. -/
theorem gymunity_C9_reduced_motion (p : TextTypeProps) :
    renderTextType true p
        = TextTypeView.staticView (textArrayOf p.text).head?
            (firstPhraseColor p.textColors) ∧
      viewShowsCursor (renderTextType true p) = false ∧
      viewAnimates (renderTextType true p) = false :=
  ⟨rfl, rfl, rfl⟩

/-- C10: `sendMessage` returns immediately — leaving the messages,
conversation id, error state and the whole component state unchanged and
issuing no effect — whenever the input trims to empty or a request is
already in flight. -/
theorem gymunity_C10_sendMessage_guard (st : CoachState) (token : Option String)
    (text : String) (h : (trimmedInput text).isEmpty = true ∨ st.isLoading = true) :
    sendMessage st token text = (st, []) := by
  rcases h with h | h
  · simp [sendMessage, h]
  · simp [sendMessage, h]

/-- Witness for C10: a whitespace-only input and an in-flight request
both leave the state unchanged with no effect. -/
theorem gymunity_C10_witness :
    sendMessage ⟨[], none, none, false, "draft"⟩ (some "tok") "   "
        = (⟨[], none, none, false, "draft"⟩, []) ∧
      sendMessage ⟨[], none, none, true, ""⟩ none "hello"
        = (⟨[], none, none, true, ""⟩, []) :=
  ⟨gymunity_C10_sendMessage_guard _ _ _ (Or.inl (by decide)),
   gymunity_C10_sendMessage_guard _ _ _ (Or.inr rfl)⟩

end GymUnity
